import Mathlib

/-!
X.509 certificate-chain verification: a shallow embedding of
`src/verifier/src/x509.rs`.

The file embeds the repository's wrapper types — `TrustAnchor`,
`UnverifiedCertChain`, `CertificateRevocationList`, `VerifiedCertChain` —
and their operations.  The mbedtls collaborator library (PEM/DER parsing,
signature mathematics and the path-validation engine behind
`Certificate::verify_with_profile`) is not part of this repository's
source; those pieces are modelled from the specification, as noted on
each such definition.
-/

namespace X509

/-- Hash algorithms used in the verification profile: the members of the
mbedtls `HashType` enumeration that `x509.rs` line 94 names. -/
inductive HashType
  | Sha256
  | Sha384
  | Sha512
  deriving DecidableEq, Repr

/-- Public-key types used in the verification profile: the members of the
mbedtls `PkType` enumeration that `x509.rs` line 100 names.  `Eckey` is the
generic elliptic-curve key type mbedtls assigns to parsed EC keys; `Ecdsa`
is the ECDSA-specific key type that, per the source comment at lines
95-99, also occurs in practice (Intel chains).  Both denote keys whose
certificate signatures are ECDSA signatures. -/
inductive PkType
  | Rsa
  | Eckey
  | Ecdsa
  deriving DecidableEq, Repr

/-- Elliptic-curve groups used in the verification profile: the members of
the mbedtls `EcGroupId` enumeration that `x509.rs` lines 102-106 name. -/
inductive EcGroupId
  | Curve25519
  | SecP256K1
  | SecP256R1
  | SecP384R1
  | SecP521R1
  deriving DecidableEq, Repr

/-- The signature algorithm a public-key type is used with.  mbedtls key
types `Eckey` and `Ecdsa` both denote elliptic-curve keys whose X.509
signatures are ECDSA signatures; `Rsa` denotes RSA. -/
inductive KeyAlg
  | rsa
  | ecdsa
  deriving DecidableEq, Repr

/-- Classify an mbedtls public-key type by its signature algorithm. -/
def pkAlg : PkType → KeyAlg
  | .Rsa => .rsa
  | .Eckey => .ecdsa
  | .Ecdsa => .ecdsa

/-- The mbedtls verification profile: `Profile::new` takes the allowed
hash algorithms, allowed public-key types, allowed elliptic curves, and
the minimum RSA modulus size in bits (`x509.rs` lines 93-109). -/
structure Profile where
  allowed_hashes : List HashType
  allowed_pks : List PkType
  allowed_curves : List EcGroupId
  rsa_min_bitlen : Nat
  deriving DecidableEq, Repr

/-- An abstract decoded X.509 certificate, the view of the structured data
that the verification logic consumes.  Identities (names, key material)
are abstracted as natural numbers; `sigKey` is the key material under
which this certificate's signature cryptographically verifies; `expired`
records whether the certificate is outside its validity window at
validation time. -/
structure Cert where
  subject : Nat
  issuer : Nat
  serial : Nat
  keyCertSign : Bool
  pubKey : Nat
  pkType : PkType
  curve : Option EcGroupId
  keyBits : Nat
  sigKey : Nat
  sigHash : HashType
  expired : Bool
  deriving DecidableEq, Repr

/-- A raw PEM or DER entry handed to a construction point: either
well-formed, decoding to the certificate `c`, or malformed, on which the
collaborator decoder fails with mbedtls error code `code`. -/
inductive RawEntry
  | wf (c : Cert)
  | malformed (code : Int)
  deriving DecidableEq, Repr

/-- Error type for decoding and verifying certificates (`x509.rs` lines
20-30): a single variant wrapping the underlying mbedtls error code. -/
inductive Error
  | MbedTls (code : Int)
  deriving DecidableEq, Repr

/-- The constructor tag of an `Error` value: the Rust enum has exactly one
variant, `MbedTls`. -/
inductive ErrorCtor
  | mbedTls
  deriving DecidableEq, Repr

/-- Map an error to its constructor tag. -/
def Error.ctor : Error → ErrorCtor
  | .MbedTls _ => .mbedTls

/-- The distinct failure kinds of verification named by the specification's
failure taxonomy. -/
inductive FailureKind
  | noValidPath
  | untrustedAnchor
  | unsupportedAlgorithm
  | expiredCertificate
  | revokedCertificate
  | malformedCrlSignature
  deriving DecidableEq, Repr

/-- An mbedtls `Certificate`: the decoded structure together with the raw
DER bytes mbedtls retains (`cert.as_der()` returns them). -/
structure MCert where
  cert : Cert
  raw : RawEntry
  deriving DecidableEq, Repr

/-- Modelled from the spec: the collaborator decoder behind mbedtls
`Certificate::from_pem` / `Certificate::from_der`.  A well-formed entry
decodes to its certificate, with the input bytes retained as the
certificate's raw DER; a malformed entry fails with its mbedtls error
code.  (The PEM null-termination at `x509.rs` lines 52, 133 and the
byte-level PEM/DER distinction are decoder internals outside the
repository source, so both encodings share this model.) -/
def Certificate.from_raw : RawEntry → Except Error MCert
  | .wf c => .ok ⟨c, .wf c⟩
  | .malformed code => .error (.MbedTls code)

/-- The loop body shared by `UnverifiedCertChain::try_from_pem` (lines
130-136) and `try_from_der` (lines 151-154): decode each entry in order,
appending to the list, failing on the first entry the decoder rejects. -/
def decodeCerts : List RawEntry → Except Error (List MCert)
  | [] => .ok []
  | e :: rest =>
    match Certificate.from_raw e with
    | .error er => .error er
    | .ok c =>
      match decodeCerts rest with
      | .error er => .error er
      | .ok cs => .ok (c :: cs)

/-- Trust anchor for a certificate chain (`x509.rs` line 34). -/
structure TrustAnchor where
  certs : List MCert
  deriving DecidableEq, Repr

/-- `TrustAnchor::try_from_pem` (lines 47-56): decode a single PEM entry
into a one-element list. -/
def TrustAnchor.try_from_pem (pem : RawEntry) : Except Error TrustAnchor :=
  (Certificate.from_raw pem).map (fun c => ⟨[c]⟩)

/-- `TrustAnchor::try_from_der` (lines 62-67): decode a single DER entry
into a one-element list. -/
def TrustAnchor.try_from_der (der : RawEntry) : Except Error TrustAnchor :=
  (Certificate.from_raw der).map (fun c => ⟨[c]⟩)

/-- An unverified certificate chain (`x509.rs` line 75). -/
structure UnverifiedCertChain where
  certs : List MCert
  deriving DecidableEq, Repr

/-- `UnverifiedCertChain::try_from_pem` (lines 124-138). -/
def UnverifiedCertChain.try_from_pem (pems : List RawEntry) :
    Except Error UnverifiedCertChain :=
  (decodeCerts pems).map UnverifiedCertChain.mk

/-- `UnverifiedCertChain::try_from_der` (lines 145-156). -/
def UnverifiedCertChain.try_from_der (ders : List RawEntry) :
    Except Error UnverifiedCertChain :=
  (decodeCerts ders).map UnverifiedCertChain.mk

/-- A decoded certificate revocation list scoped to one issuer: the
revoked serial numbers and whether its validity window covers the
validation time.  Its own signature validity is captured at the raw level
(see `RawCrl`), since a badly-signed CRL never becomes a `CrlData`. -/
structure CrlData where
  issuer : Nat
  revoked : List Nat
  current : Bool
  deriving DecidableEq, Repr

/-- A raw PEM or DER CRL entry: well-formed, well-formed but carrying an
invalid self-signature, or malformed with an mbedtls error code. -/
inductive RawCrl
  | wf (c : CrlData)
  | badSig (c : CrlData)
  | malformed (code : Int)
  deriving DecidableEq, Repr

/-- The mbedtls error code the source observes when a CRL is rejected
(`MBEDTLS_ERR_X509_CERT_VERIFY_FAILED`, -0x2700). -/
def x509VerifyFailedCode : Int := -9984

/-- Modelled from the spec: the collaborator behind mbedtls
`Crl::push_from_pem` / `Crl::push_from_der`.  A well-formed CRL is
appended; a malformed CRL fails with its error code; a CRL whose own
signature is invalid is rejected (the source's test
`invalid_bad_crl_signature_4_4_4` at `x509.rs` lines 462-474: "The CRL
signature is invalid so parsing the CRL will fail"). -/
def Crl.push_from_raw : RawCrl → Except Error CrlData
  | .wf c => .ok c
  | .badSig _ => .error (.MbedTls x509VerifyFailedCode)
  | .malformed code => .error (.MbedTls code)

/-- Certificate revocation list (`x509.rs` line 161): the set of decoded
CRLs accumulated by the construction loop. -/
structure CertificateRevocationList where
  crls : List CrlData
  deriving DecidableEq, Repr

/-- The loop body shared by `CertificateRevocationList::try_from_pem`
(lines 169-182) and `try_from_der` (lines 189-199): push each entry in
order, failing on the first entry the decoder rejects. -/
def pushCrls : List RawCrl → Except Error (List CrlData)
  | [] => .ok []
  | e :: rest =>
    match Crl.push_from_raw e with
    | .error er => .error er
    | .ok c =>
      match pushCrls rest with
      | .error er => .error er
      | .ok cs => .ok (c :: cs)

/-- `CertificateRevocationList::try_from_pem` (lines 169-182). -/
def CertificateRevocationList.try_from_pem (pems : List RawCrl) :
    Except Error CertificateRevocationList :=
  (pushCrls pems).map CertificateRevocationList.mk

/-- `CertificateRevocationList::try_from_der` (lines 189-199). -/
def CertificateRevocationList.try_from_der (ders : List RawCrl) :
    Except Error CertificateRevocationList :=
  (pushCrls ders).map CertificateRevocationList.mk

/-- A verified certificate chain (`x509.rs` line 205). -/
structure VerifiedCertChain where
  certs : List MCert
  deriving DecidableEq, Repr

/-- The profile `UnverifiedCertChain::verify` constructs (`x509.rs` lines
93-109): SHA-256/384/512 hashes; RSA, EC-key and ECDSA key types; the five
listed curves; 2048-bit minimum RSA modulus. -/
def verifyProfile : Profile :=
  { allowed_hashes := [.Sha256, .Sha384, .Sha512]
    allowed_pks := [.Rsa, .Eckey, .Ecdsa]
    allowed_curves := [.Curve25519, .SecP256K1, .SecP256R1, .SecP384R1, .SecP521R1]
    rsa_min_bitlen := 2048 }

/-- Modelled from the spec: does a candidate issuer key satisfy the
profile's key constraints (allowed key type, allowed curve for EC keys,
minimum modulus size for RSA keys)? -/
def keyAllowed (p : Profile) (i : Cert) : Bool :=
  p.allowed_pks.contains i.pkType
    && (match i.curve with
        | some g => p.allowed_curves.contains g
        | none => true)
    && (if i.pkType == PkType.Rsa then decide (p.rsa_min_bitlen ≤ i.keyBits) else true)

/-- Modelled from the spec: certificate `i` is an acceptable issuer of
certificate `c` — `i`'s subject equals `c`'s issuer, `i`'s public key
cryptographically verifies `c`'s signature, the signature hash is in the
profile and `i`'s key satisfies the profile's key constraints. -/
def issuedBy (p : Profile) (c i : Cert) : Bool :=
  i.subject == c.issuer && i.pubKey == c.sigKey
    && p.allowed_hashes.contains c.sigHash && keyAllowed p i

/-- Is `c` one of the trust anchors (matched by subject and public key)? -/
def isAnchor (anchors : List Cert) (c : Cert) : Bool :=
  anchors.any (fun a => a.subject == c.subject && a.pubKey == c.pubKey)

/-- Modelled from the spec: issuer-link walk over the unordered candidate
pool — `c` reaches a trust anchor within `fuel` issuer steps. -/
def reachesAnchor (p : Profile) (pool anchors : List Cert) : Nat → Cert → Bool
  | 0, _ => false
  | fuel + 1, c =>
    isAnchor anchors c
      || pool.any (fun i => issuedBy p c i && reachesAnchor p pool anchors fuel i)

/-- Modelled from the spec: the revocation check the engine applies to one
certificate.  If a CRL whose issuer identity matches the certificate's
issuer is present, that CRL must be current and must not list the
certificate's serial number; if no such CRL is present, no determination
is made and the certificate is treated as non-revoked (mbedtls: "Skip
validation if no CRL for the given CA is present", `x509.rs` lines
392-406). -/
def revocationOk (crls : List CrlData) (c : Cert) : Bool :=
  match crls.find? (fun d => d.issuer == c.issuer) with
  | none => true
  | some d => d.current && !(d.revoked.contains c.serial)

/-- Modelled from the spec: the mbedtls path-validation engine behind
`Certificate::verify_with_profile` (`x509.rs` lines 110-116).  The chain
and the trust anchors form an unordered candidate pool; every chain
certificate must be within its validity window, pass the revocation
check, and reach a trust anchor along profile-conformant issuer links. -/
def verify_with_profile (chain anchors : List Cert) (crls : List CrlData)
    (p : Profile) : Bool :=
  let pool := chain ++ anchors
  chain.all (fun c =>
    !c.expired && revocationOk crls c
      && reachesAnchor p pool anchors (pool.length + 1) c)

/-- `UnverifiedCertChain::verify` (`x509.rs` lines 88-118): build the
fixed profile, run the engine against the trust anchor and the revocation
list, and on success return a `VerifiedCertChain` wrapping the original
certificate set unchanged (`Ok(VerifiedCertChain(self.0))`, line 117). -/
def UnverifiedCertChain.verify (chain : UnverifiedCertChain)
    (trust_anchor : TrustAnchor) (crl : CertificateRevocationList) :
    Except Error VerifiedCertChain :=
  if verify_with_profile (chain.certs.map MCert.cert)
      (trust_anchor.certs.map MCert.cert) crl.crls verifyProfile
  then .ok ⟨chain.certs⟩
  else .error (.MbedTls x509VerifyFailedCode)

/-- `cert.as_der()`: the raw DER bytes mbedtls retained for the
certificate. -/
def MCert.as_der (m : MCert) : RawEntry := m.raw

/-- Modelled from the spec: the `x509_cert` crate's
`X509Certificate::from_der` as used by `leaf()` — re-decoding well-formed
DER bytes into the structured certificate succeeds; malformed bytes fail
to decode. -/
def X509Certificate.from_der : RawEntry → Option Cert
  | .wf c => some c
  | .malformed _ => none

/-- The observable outcome of `VerifiedCertChain::leaf` (`x509.rs` lines
215-228): the decoded leaf certificate, `noLeaf` when the chain is empty
or all-CA (Rust `None`), or `decodeFailure` for the `expect` panic branch
at lines 223-225. -/
inductive LeafResult
  | found (c : Cert)
  | noLeaf
  | decodeFailure
  deriving DecidableEq, Repr

/-- `VerifiedCertChain::leaf` (`x509.rs` lines 215-228): scan the chain in
order, skipping every certificate whose `keyCertSign` bit is asserted;
re-decode the first remaining certificate's DER bytes; return `None` when
every certificate is a CA certificate. -/
def VerifiedCertChain.leaf (v : VerifiedCertChain) : LeafResult :=
  match v.certs.find? (fun m => ! m.cert.keyCertSign) with
  | some m =>
    match X509Certificate.from_der m.as_der with
    | some c => .found c
    | none => .decodeFailure
  | none => .noLeaf

/-! Concrete fixtures mirroring the repository's test data: a self-signed
root CA, an intermediate (processor) CA signed by the root, and a leaf
certificate signed by the intermediate. -/

/-- Fixture: the root CA certificate (self-signed, `keyCertSign` set). -/
def rootCert : Cert :=
  { subject := 0, issuer := 0, serial := 0, keyCertSign := true
    pubKey := 10, pkType := .Eckey, curve := some .SecP256R1, keyBits := 256
    sigKey := 10, sigHash := .Sha256, expired := false }

/-- Fixture: the intermediate (processor) CA certificate, signed by the
root, `keyCertSign` set. -/
def processorCert : Cert :=
  { subject := 1, issuer := 0, serial := 1, keyCertSign := true
    pubKey := 11, pkType := .Eckey, curve := some .SecP256R1, keyBits := 256
    sigKey := 10, sigHash := .Sha256, expired := false }

/-- Fixture: the leaf (end-entity) certificate, signed by the
intermediate, `keyCertSign` clear. -/
def leafCert : Cert :=
  { subject := 2, issuer := 1, serial := 2, keyCertSign := false
    pubKey := 12, pkType := .Eckey, curve := some .SecP256R1, keyBits := 256
    sigKey := 11, sigHash := .Sha256, expired := false }

/-- Fixture: the root certificate with its retained raw DER. -/
def rootM : MCert := ⟨rootCert, .wf rootCert⟩

/-- Fixture: the intermediate certificate with its retained raw DER. -/
def processorM : MCert := ⟨processorCert, .wf processorCert⟩

/-- Fixture: the leaf certificate with its retained raw DER. -/
def leafM : MCert := ⟨leafCert, .wf leafCert⟩

/-- Fixture: a trust anchor holding the root certificate. -/
def anchorStore : TrustAnchor := ⟨[rootM]⟩

/-- Fixture: the root's CRL — current, scoped to the root's issuer
identity, listing no revoked serial numbers. -/
def rootCrlData : CrlData := { issuer := 0, revoked := [], current := true }

/-- Fixture: a revocation list holding only the root's CRL (no CRL for
the intermediate's issued certificates). -/
def rootOnlyCrl : CertificateRevocationList := ⟨[rootCrlData]⟩

/-- Fixture: an empty revocation list. -/
def emptyCrl : CertificateRevocationList := ⟨[]⟩

/-! Helper lemmas shared by the claim theorems. -/

/-- Every certificate produced by the decode loop retains well-formed raw
DER bytes: the decoder only accepts well-formed entries and stores the
bytes it accepted. -/
theorem decodeCerts_ok_raw_wf : ∀ {entries : List RawEntry} {cs : List MCert},
    decodeCerts entries = Except.ok cs → ∀ m ∈ cs, ∃ c, m.raw = RawEntry.wf c
  | [], cs, h => by
    simp only [decodeCerts] at h
    injection h with h
    subst h
    intro m hm
    exact absurd hm (List.not_mem_nil m)
  | e :: rest, cs, h => by
    cases e with
    | malformed code => simp [decodeCerts, Certificate.from_raw] at h
    | wf c =>
      cases hrest : decodeCerts rest with
      | error er => simp [decodeCerts, Certificate.from_raw, hrest] at h
      | ok cs0 =>
        simp only [decodeCerts, Certificate.from_raw, hrest] at h
        injection h with h
        subst h
        intro m hm
        rcases List.mem_cons.mp hm with hm | hm
        · exact ⟨c, by rw [hm]⟩
        · exact decodeCerts_ok_raw_wf hrest m hm

/-- The decode loop fails with the first malformed entry's error code. -/
theorem decodeCerts_first_malformed :
    ∀ (pre : List RawEntry) (code : Int) (post : List RawEntry),
    (∀ e ∈ pre, ∃ c, e = RawEntry.wf c) →
    decodeCerts (pre ++ RawEntry.malformed code :: post)
      = .error (.MbedTls code)
  | [], code, post, _ => by simp [decodeCerts, Certificate.from_raw]
  | e :: pre, code, post, hpre => by
    obtain ⟨c, rfl⟩ := hpre e (List.mem_cons_self e pre)
    have ih := decodeCerts_first_malformed pre code post
      (fun x hx => hpre x (List.mem_cons_of_mem _ hx))
    simp [decodeCerts, Certificate.from_raw, ih]

/-- The CRL push loop fails with the first malformed entry's error code. -/
theorem pushCrls_first_malformed :
    ∀ (pre : List RawCrl) (code : Int) (post : List RawCrl),
    (∀ e ∈ pre, ∃ d, e = RawCrl.wf d) →
    pushCrls (pre ++ RawCrl.malformed code :: post) = .error (.MbedTls code)
  | [], code, post, _ => by simp [pushCrls, Crl.push_from_raw]
  | e :: pre, code, post, hpre => by
    obtain ⟨d, rfl⟩ := hpre e (List.mem_cons_self e pre)
    have ih := pushCrls_first_malformed pre code post
      (fun x hx => hpre x (List.mem_cons_of_mem _ hx))
    simp [pushCrls, Crl.push_from_raw, ih]

/-- The CRL push loop fails whenever a badly-signed CRL is anywhere in the
input. -/
theorem pushCrls_badSig : ∀ {entries : List RawCrl} {d : CrlData},
    RawCrl.badSig d ∈ entries → ∃ e, pushCrls entries = .error e
  | [], d, h => absurd h (List.not_mem_nil _)
  | e :: rest, d, h => by
    cases e with
    | badSig c =>
      exact ⟨.MbedTls x509VerifyFailedCode, by simp [pushCrls, Crl.push_from_raw]⟩
    | malformed code =>
      exact ⟨.MbedTls code, by simp [pushCrls, Crl.push_from_raw]⟩
    | wf c =>
      rcases List.mem_cons.mp h with h | h
      · exact absurd h (by simp)
      · obtain ⟨er, her⟩ := pushCrls_badSig h
        exact ⟨er, by simp [pushCrls, Crl.push_from_raw, her]⟩

/-- A successful verify returns the chain's own certificate list. -/
theorem verify_ok_certs {chain : UnverifiedCertChain} {ta : TrustAnchor}
    {crl : CertificateRevocationList} {v : VerifiedCertChain}
    (h : chain.verify ta crl = .ok v) : v.certs = chain.certs := by
  unfold UnverifiedCertChain.verify at h
  split at h
  · injection h with h
    rw [← h]
  · exact Except.noConfusion h

/-- A successful verify means the engine accepted the chain. -/
theorem verify_cond_of_ok {chain : UnverifiedCertChain} {ta : TrustAnchor}
    {crl : CertificateRevocationList} {v : VerifiedCertChain}
    (h : chain.verify ta crl = .ok v) :
    verify_with_profile (chain.certs.map MCert.cert) (ta.certs.map MCert.cert)
      crl.crls verifyProfile = true := by
  unfold UnverifiedCertChain.verify at h
  split at h
  · assumption
  · exact Except.noConfusion h

/-- If the engine accepts the chain, verify succeeds and wraps the chain's
certificate list. -/
theorem verify_ok_of_cond {chain : UnverifiedCertChain} {ta : TrustAnchor}
    {crl : CertificateRevocationList}
    (h : verify_with_profile (chain.certs.map MCert.cert) (ta.certs.map MCert.cert)
      crl.crls verifyProfile = true) :
    chain.verify ta crl = .ok (VerifiedCertChain.mk chain.certs) := by
  unfold UnverifiedCertChain.verify
  rw [if_pos h]

/-- The issuer-link walk only inspects the pool through membership, so it
is invariant under permutation of the pool. -/
theorem reachesAnchor_perm {pool1 pool2 : List Cert} (anchors : List Cert)
    (p : Profile) (hp : pool1.Perm pool2) :
    ∀ (n : Nat) (c : Cert),
      reachesAnchor p pool1 anchors n c = reachesAnchor p pool2 anchors n c := by
  intro n
  induction n with
  | zero => intro c; rfl
  | succ n ih =>
    intro c
    simp only [reachesAnchor]
    congr 1
    rw [Bool.eq_iff_iff]
    simp only [List.any_eq_true]
    constructor
    · rintro ⟨i, hi, hcond⟩
      refine ⟨i, hp.mem_iff.mp hi, ?_⟩
      rw [← ih i]
      exact hcond
    · rintro ⟨i, hi, hcond⟩
      refine ⟨i, hp.mem_iff.mpr hi, ?_⟩
      rw [ih i]
      exact hcond

/-- The engine's acceptance is invariant under permutation of the chain. -/
theorem verify_with_profile_perm {c1 c2 : List Cert} (anchors : List Cert)
    (crls : List CrlData) (p : Profile) (h : c1.Perm c2) :
    verify_with_profile c1 anchors crls p = verify_with_profile c2 anchors crls p := by
  have hpool : (c1 ++ anchors).Perm (c2 ++ anchors) := h.append_right anchors
  have hlen : (c1 ++ anchors).length = (c2 ++ anchors).length := hpool.length_eq
  simp only [verify_with_profile]
  rw [Bool.eq_iff_iff]
  simp only [List.all_eq_true]
  constructor
  · intro hall x hx
    have hx1 := hall x (h.mem_iff.mpr hx)
    rwa [reachesAnchor_perm anchors p hpool, hlen] at hx1
  · intro hall x hx
    have hx1 := hall x (h.mem_iff.mp hx)
    rwa [← reachesAnchor_perm anchors p hpool, ← hlen] at hx1

/-- In any permutation of a three-certificate chain whose only
non-`keyCertSign` member is `l`, the leaf scan finds `l`. -/
theorem find_leaf_of_perm {l i r : MCert} {p : List MCert}
    (hp : p.Perm [l, i, r]) (hl : l.cert.keyCertSign = false)
    (hi : i.cert.keyCertSign = true) (hr : r.cert.keyCertSign = true) :
    p.find? (fun m => ! m.cert.keyCertSign) = some l := by
  have hmem : l ∈ p := hp.mem_iff.mpr (by simp)
  have hsome : (p.find? (fun m => ! m.cert.keyCertSign)).isSome :=
    List.find?_isSome.mpr ⟨l, hmem, by simp [hl]⟩
  obtain ⟨x, hx⟩ := Option.isSome_iff_exists.mp hsome
  have hpx : (! x.cert.keyCertSign) = true :=
    List.find?_some (p := fun (m : MCert) => ! m.cert.keyCertSign) hx
  have hxm : x = l ∨ x = i ∨ x = r := by
    have := hp.mem_iff.mp (List.mem_of_find?_eq_some hx)
    simpa using this
  have hxl : x = l := by
    rcases hxm with h1 | h1 | h1
    · exact h1
    · rw [h1, hi] at hpx
      simp at hpx
    · rw [h1, hr] at hpx
      simp at hpx
  rw [hx, hxl]

/-! Claim theorems. -/

/-- C1: for every permutation of a valid three-certificate chain (leaf,
intermediate, root in any order), `verify` succeeds and `leaf()` returns
the same leaf certificate as for the reference order. -/
theorem verify_order_independent (l i r : MCert) (ta : TrustAnchor)
    (crl : CertificateRevocationList)
    (hl : l.cert.keyCertSign = false) (hi : i.cert.keyCertSign = true)
    (hr : r.cert.keyCertSign = true)
    (hok : (UnverifiedCertChain.mk [l, i, r]).verify ta crl
      = .ok (VerifiedCertChain.mk [l, i, r]))
    (p : List MCert) (hp : p.Perm [l, i, r]) :
    (UnverifiedCertChain.mk p).verify ta crl = .ok (VerifiedCertChain.mk p)
      ∧ (VerifiedCertChain.mk p).leaf = (VerifiedCertChain.mk [l, i, r]).leaf := by
  have hcond := verify_cond_of_ok hok
  have hperm : (p.map MCert.cert).Perm ([l, i, r].map MCert.cert) := hp.map _
  have hcond2 : verify_with_profile (p.map MCert.cert)
      (ta.certs.map MCert.cert) crl.crls verifyProfile = true := by
    rw [verify_with_profile_perm _ _ _ hperm]
    exact hcond
  refine ⟨verify_ok_of_cond hcond2, ?_⟩
  have h1 : p.find? (fun m => ! m.cert.keyCertSign) = some l :=
    find_leaf_of_perm hp hl hi hr
  have h2 : List.find? (fun m => ! m.cert.keyCertSign) [l, i, r] = some l :=
    List.find?_cons_of_pos _ (by simp [hl])
  simp [VerifiedCertChain.leaf, h1, h2]

/-- C1 witness: the fixture chain in reversed order verifies and yields
the same leaf as the reference order. -/
theorem verify_order_independent_witness :
    (UnverifiedCertChain.mk [rootM, processorM, leafM]).verify anchorStore emptyCrl
      = .ok (VerifiedCertChain.mk [rootM, processorM, leafM])
      ∧ (VerifiedCertChain.mk [rootM, processorM, leafM]).leaf
        = (VerifiedCertChain.mk [leafM, processorM, rootM]).leaf :=
  verify_order_independent leafM processorM rootM anchorStore emptyCrl rfl rfl rfl rfl
    [rootM, processorM, leafM] (by decide)

/-- C2: a certificate whose issuer has no CRL in the revocation list is
treated as non-revoked; with all other checks passing, `verify` returns a
`VerifiedCertChain`. -/
theorem verify_missing_crl_accepts (chain : UnverifiedCertChain)
    (ta : TrustAnchor) (crl : CertificateRevocationList) (m0 : MCert)
    (hmem : m0 ∈ chain.certs)
    (hnone : crl.crls.find? (fun d => d.issuer == m0.cert.issuer) = none)
    (hrev : ∀ m ∈ chain.certs, m ≠ m0 → revocationOk crl.crls m.cert = true)
    (hpath : ∀ m ∈ chain.certs, m.cert.expired = false ∧
      reachesAnchor verifyProfile
        (chain.certs.map MCert.cert ++ ta.certs.map MCert.cert)
        (ta.certs.map MCert.cert)
        ((chain.certs.map MCert.cert ++ ta.certs.map MCert.cert).length + 1)
        m.cert = true) :
    chain.verify ta crl = .ok (VerifiedCertChain.mk chain.certs) := by
  apply verify_ok_of_cond
  simp only [verify_with_profile, List.all_eq_true]
  intro c hc
  obtain ⟨m, hm, rfl⟩ := List.mem_map.mp hc
  have hx := hpath m hm
  have hrevm : revocationOk crl.crls m.cert = true := by
    by_cases hmm : m = m0
    · subst hmm
      simp [revocationOk, hnone]
    · exact hrev m hm hmm
  have hx2 := hx.2
  simp only [List.length_append, List.length_map] at hx2
  simp [hx.1, hrevm, hx2]

/-- C2 witness: the fixture chain with only the root CRL present (no CRL
for the leaf's issuer) still verifies. -/
theorem verify_missing_crl_accepts_witness :
    (UnverifiedCertChain.mk [leafM, processorM, rootM]).verify anchorStore rootOnlyCrl
      = .ok (VerifiedCertChain.mk [leafM, processorM, rootM]) :=
  verify_missing_crl_accepts ⟨[leafM, processorM, rootM]⟩ anchorStore rootOnlyCrl
    leafM (by decide) rfl (by decide) (by decide)

/-- C3: the policy `verify` applies is the fixed profile: hashes exactly
SHA-256/384/512, key types all RSA- or ECDSA-class with both present, the
fixed enumerated curve list, and a 2048-bit minimum RSA modulus. -/
theorem verify_validation_profile :
    verifyProfile.allowed_hashes = [HashType.Sha256, HashType.Sha384, HashType.Sha512]
      ∧ verifyProfile.allowed_pks.all
          (fun pk => pkAlg pk == KeyAlg.rsa || pkAlg pk == KeyAlg.ecdsa) = true
      ∧ KeyAlg.rsa ∈ verifyProfile.allowed_pks.map pkAlg
      ∧ KeyAlg.ecdsa ∈ verifyProfile.allowed_pks.map pkAlg
      ∧ verifyProfile.allowed_curves
        = [EcGroupId.Curve25519, EcGroupId.SecP256K1, EcGroupId.SecP256R1,
            EcGroupId.SecP384R1, EcGroupId.SecP521R1]
      ∧ verifyProfile.rsa_min_bitlen = 2048 := by
  decide

/-- C4: `leaf()` returns the first certificate whose `keyCertSign` bit is
not asserted, re-decoded from its raw DER, and `noLeaf` when every
certificate in the chain is a CA certificate (or the chain is empty). -/
theorem leaf_first_non_ca (v : VerifiedCertChain) :
    (∃ pre m post, v.certs = pre ++ m :: post
        ∧ (∀ x ∈ pre, x.cert.keyCertSign = true)
        ∧ m.cert.keyCertSign = false
        ∧ v.leaf = (X509Certificate.from_der m.as_der).elim
            LeafResult.decodeFailure LeafResult.found)
      ∨ ((∀ m ∈ v.certs, m.cert.keyCertSign = true) ∧ v.leaf = LeafResult.noLeaf) := by
  obtain ⟨certs⟩ := v
  induction certs with
  | nil =>
    right
    exact ⟨fun m hm => absurd hm (List.not_mem_nil m), rfl⟩
  | cons m rest ih =>
    by_cases hm : m.cert.keyCertSign = true
    · have hstep : (VerifiedCertChain.mk (m :: rest)).leaf
          = (VerifiedCertChain.mk rest).leaf := by
        unfold VerifiedCertChain.leaf
        rw [show (VerifiedCertChain.mk (m :: rest)).certs = m :: rest from rfl,
          List.find?_cons_of_neg _ (by simp [hm])]
      rcases ih with ⟨pre, m0, post, hsplit, hpre, hm0, hleaf⟩ | ⟨hall, hleaf⟩
      · left
        refine ⟨m :: pre, m0, post, ?_, ?_, hm0, hstep.trans hleaf⟩
        · show m :: rest = (m :: pre) ++ m0 :: post
          rw [show (VerifiedCertChain.mk rest).certs = rest from rfl] at hsplit
          rw [hsplit]
          rfl
        · intro x hx
          rcases List.mem_cons.mp hx with hx | hx
          · rw [hx]
            exact hm
          · exact hpre x hx
      · right
        refine ⟨?_, hstep.trans hleaf⟩
        intro x hx
        rcases List.mem_cons.mp hx with hx | hx
        · rw [hx]
          exact hm
        · exact hall x hx
    · left
      have hm' : m.cert.keyCertSign = false := by
        cases h : m.cert.keyCertSign
        · rfl
        · exact absurd h hm
      refine ⟨[], m, rest, rfl, fun x hx => absurd hx (List.not_mem_nil x), hm', ?_⟩
      unfold VerifiedCertChain.leaf
      rw [show (VerifiedCertChain.mk (m :: rest)).certs = m :: rest from rfl,
        List.find?_cons_of_pos _ (by simp [hm'])]
      cases hd : X509Certificate.from_der m.as_der <;> simp [hd, Option.elim]

/-- C5: when `verify` succeeds, the returned `VerifiedCertChain` wraps
exactly the input chain's certificate list, unchanged and in order. -/
theorem verify_preserves_certs (chain : UnverifiedCertChain) (ta : TrustAnchor)
    (crl : CertificateRevocationList) (v : VerifiedCertChain)
    (h : chain.verify ta crl = .ok v) : v.certs = chain.certs :=
  verify_ok_certs h

/-- C5 witness: the fixture chain verifies and the result carries exactly
the input certificate list. -/
theorem verify_preserves_certs_witness :
    (VerifiedCertChain.mk [leafM, processorM, rootM]).certs
      = (UnverifiedCertChain.mk [leafM, processorM, rootM]).certs :=
  verify_preserves_certs ⟨[leafM, processorM, rootM]⟩ anchorStore emptyCrl
    ⟨[leafM, processorM, rootM]⟩ rfl

/-- C6 counterexample: the error type has a single constructor, so no
injective assignment of the six failure kinds to error variants exists —
the failure kinds are not surfaced as distinguishable variants. -/
theorem error_kinds_not_distinguishable :
    ¬ ∃ f : FailureKind → ErrorCtor, Function.Injective f := by
  rintro ⟨f, hf⟩
  have hall : ∀ x : ErrorCtor, x = ErrorCtor.mbedTls := by
    intro x
    cases x
    rfl
  have heq : f FailureKind.noValidPath = f FailureKind.revokedCertificate :=
    (hall _).trans (hall _).symm
  exact FailureKind.noConfusion (hf heq)

/-- C6 amended: every verification failure reaches the caller through the
single `Error::MbedTls` variant, wrapping the engine's error code; the
distinct failure kinds are not distinguishable as separate variants. -/
theorem error_single_variant (e : Error) :
    e.ctor = ErrorCtor.mbedTls ∧ ∃ code, e = Error.MbedTls code := by
  cases e with
  | MbedTls code => exact ⟨rfl, code, rfl⟩

/-- C7: for every input sequence with a malformed entry, construction of a
trust anchor, certificate chain or revocation list fails with the decode
error of the first malformed entry, and no partial value is returned. -/
theorem construction_fails_on_first_malformed
    (pre post : List RawEntry) (code : Int)
    (hpre : ∀ e ∈ pre, ∃ c, e = RawEntry.wf c)
    (cpre cpost : List RawCrl) (ccode : Int)
    (hcpre : ∀ e ∈ cpre, ∃ d, e = RawCrl.wf d) :
    UnverifiedCertChain.try_from_pem (pre ++ RawEntry.malformed code :: post)
      = .error (.MbedTls code)
      ∧ UnverifiedCertChain.try_from_der (pre ++ RawEntry.malformed code :: post)
        = .error (.MbedTls code)
      ∧ TrustAnchor.try_from_pem (RawEntry.malformed code) = .error (.MbedTls code)
      ∧ TrustAnchor.try_from_der (RawEntry.malformed code) = .error (.MbedTls code)
      ∧ CertificateRevocationList.try_from_pem
          (cpre ++ RawCrl.malformed ccode :: cpost) = .error (.MbedTls ccode)
      ∧ CertificateRevocationList.try_from_der
          (cpre ++ RawCrl.malformed ccode :: cpost) = .error (.MbedTls ccode) := by
  have h1 := decodeCerts_first_malformed pre code post hpre
  have h2 := pushCrls_first_malformed cpre ccode cpost hcpre
  refine ⟨?_, ?_, rfl, rfl, ?_, ?_⟩ <;>
    simp [UnverifiedCertChain.try_from_pem, UnverifiedCertChain.try_from_der,
      CertificateRevocationList.try_from_pem,
      CertificateRevocationList.try_from_der, Except.map, h1, h2]

/-- C7 witness: a malformed entry after one well-formed entry fails every
construction with that entry's decode error. -/
theorem construction_fails_on_first_malformed_witness :
    UnverifiedCertChain.try_from_pem
        [RawEntry.wf rootCert, RawEntry.malformed (-3), RawEntry.wf leafCert]
      = .error (.MbedTls (-3))
      ∧ UnverifiedCertChain.try_from_der
          [RawEntry.wf rootCert, RawEntry.malformed (-3), RawEntry.wf leafCert]
        = .error (.MbedTls (-3))
      ∧ TrustAnchor.try_from_pem (RawEntry.malformed (-3)) = .error (.MbedTls (-3))
      ∧ TrustAnchor.try_from_der (RawEntry.malformed (-3)) = .error (.MbedTls (-3))
      ∧ CertificateRevocationList.try_from_pem
          [RawCrl.wf rootCrlData, RawCrl.malformed (-5)] = .error (.MbedTls (-5))
      ∧ CertificateRevocationList.try_from_der
          [RawCrl.wf rootCrlData, RawCrl.malformed (-5)] = .error (.MbedTls (-5)) :=
  construction_fails_on_first_malformed [RawEntry.wf rootCert] [RawEntry.wf leafCert]
    (-3) (fun _ he => ⟨rootCert, List.mem_singleton.mp he⟩)
    [RawCrl.wf rootCrlData] [] (-5)
    (fun _ he => ⟨rootCrlData, List.mem_singleton.mp he⟩)

/-- C8: an input sequence containing a CRL whose own signature is invalid
never constructs a revocation list — construction fails with an error. -/
theorem crl_bad_signature_rejected (entries : List RawCrl) (d : CrlData)
    (h : RawCrl.badSig d ∈ entries) :
    (∃ e, CertificateRevocationList.try_from_der entries = .error e)
      ∧ (∃ e, CertificateRevocationList.try_from_pem entries = .error e) := by
  obtain ⟨er, her⟩ := pushCrls_badSig h
  exact ⟨⟨er, by simp [CertificateRevocationList.try_from_der, Except.map, her]⟩,
    ⟨er, by simp [CertificateRevocationList.try_from_pem, Except.map, her]⟩⟩

/-- C8 witness: a single badly-signed CRL fails both construction
entry points. -/
theorem crl_bad_signature_rejected_witness :
    (∃ e, CertificateRevocationList.try_from_der [RawCrl.badSig rootCrlData]
      = .error e)
      ∧ (∃ e, CertificateRevocationList.try_from_pem [RawCrl.badSig rootCrlData]
        = .error e) :=
  crl_bad_signature_rejected [RawCrl.badSig rootCrlData] rootCrlData
    (List.mem_singleton.mpr rfl)

/-- C9: for a chain built by `try_from_pem`/`try_from_der` and validated
by `verify`, re-decoding inside `leaf()` always succeeds — the panic
branch is unreachable. -/
theorem leaf_decode_never_fails (entries : List RawEntry)
    (chain : UnverifiedCertChain) (ta : TrustAnchor)
    (crl : CertificateRevocationList) (v : VerifiedCertChain)
    (hdec : UnverifiedCertChain.try_from_pem entries = .ok chain
      ∨ UnverifiedCertChain.try_from_der entries = .ok chain)
    (hver : chain.verify ta crl = .ok v) :
    v.leaf ≠ LeafResult.decodeFailure := by
  have hlist : decodeCerts entries = .ok chain.certs := by
    rcases hdec with h | h <;>
    · first
        | unfold UnverifiedCertChain.try_from_pem at h
        | skip
      first
        | unfold UnverifiedCertChain.try_from_der at h
        | skip
      cases hd : decodeCerts entries with
      | error er =>
        rw [hd] at h
        exact Except.noConfusion h
      | ok cs =>
        rw [hd] at h
        injection h with h
        rw [← h]
  have hraw := decodeCerts_ok_raw_wf hlist
  have hcerts : v.certs = chain.certs := verify_ok_certs hver
  unfold VerifiedCertChain.leaf
  cases hf : v.certs.find? (fun m => ! m.cert.keyCertSign) with
  | none => simp
  | some m =>
    have hmem : m ∈ chain.certs := by
      rw [← hcerts]
      exact List.mem_of_find?_eq_some hf
    obtain ⟨c, hc⟩ := hraw m hmem
    simp [MCert.as_der, hc, X509Certificate.from_der]

/-- C9 witness: the fixture chain, built from well-formed entries and
verified, never reaches the decode-failure branch of `leaf()`. -/
theorem leaf_decode_never_fails_witness :
    (VerifiedCertChain.mk [leafM, processorM, rootM]).leaf
      ≠ LeafResult.decodeFailure :=
  leaf_decode_never_fails
    [RawEntry.wf leafCert, RawEntry.wf processorCert, RawEntry.wf rootCert]
    ⟨[leafM, processorM, rootM]⟩ anchorStore emptyCrl
    ⟨[leafM, processorM, rootM]⟩ (Or.inl rfl) rfl

/-- C10: an empty iterator of PEM strings or DER slices constructs an
empty certificate chain, respectively an empty revocation list. -/
theorem empty_inputs_succeed :
    UnverifiedCertChain.try_from_pem [] = .ok ⟨[]⟩
      ∧ UnverifiedCertChain.try_from_der [] = .ok ⟨[]⟩
      ∧ CertificateRevocationList.try_from_pem [] = .ok ⟨[]⟩
      ∧ CertificateRevocationList.try_from_der [] = .ok ⟨[]⟩ :=
  ⟨rfl, rfl, rfl, rfl⟩

end X509
